import Mathlib

/-!
Verification of the training/optimization orchestration engine of
`model_training.py` (STT-STGNN-GAT_LSTM) against its specification.

The definitions below are a shallow embedding of the source:
validation losses are rationals, the per-fold early-stopping loop of
`objective` (source lines 87-118) is a fuel-indexed state machine, the
`TimeSeriesSplit` cross-validation split, the optuna `study.optimize`
driver and the tail of the main routine (save / complexity report) are
embedded as executable functions.
-/

namespace ModelTraining

/-! ## Per-fold early stopping (source lines 87-118)

State per fold: `best` (best validation loss seen so far, `none` plays
the role of `float('inf')`), and `counter` (the `patience_counter`).
After each epoch the code does:
`if val_loss < best: best := val_loss; counter := 0`
`else: counter += 1; if counter >= patience: break`. -/

/-- Embeds `val_loss < best_val_loss`, where `none` stands for `float('inf')`. -/
def improves (l : ℚ) (best : Option ℚ) : Bool :=
  match best with
  | none => true
  | some b => decide (l < b)

/-- One early-stopping transition for the epoch's validation loss `l`:
`some (best, counter)` continues the loop, `none` breaks out of it. -/
def esStep (patience : ℕ) (l : ℚ) (best : Option ℚ) (counter : ℕ) :
    Option (Option ℚ × ℕ) :=
  match improves l best with
  | true => some (some l, 0)
  | false =>
    if patience ≤ counter + 1 then none
    else some (best, counter + 1)

/-- The epoch loop `for epoch in range(cap)` with early stopping; `fuel` is
the number of remaining epochs, `e` the current epoch index.  Returns the
number of executed epochs together with the final best validation loss. -/
def runFoldAux (L : ℕ → ℚ) (patience : ℕ) :
    ℕ → ℕ → Option ℚ → ℕ → ℕ × Option ℚ
  | 0, e, best, _ => (e, best)
  | fuel + 1, e, best, counter =>
    match esStep patience (L e) best counter with
    | none => (e + 1, best)
    | some (b, c) => runFoldAux L patience fuel (e + 1) b c

/-- Run one fold on the validation-loss sequence `L` with the given
patience and epoch cap, from the initial state
`best_val_loss = float('inf')`, `patience_counter = 0`. -/
def runFold (L : ℕ → ℚ) (patience cap : ℕ) : ℕ × Option ℚ :=
  runFoldAux L patience cap 0 none 0

/-- A search-time fold: `for epoch in range(50)` with patience `5`
(source lines 90 and 116). -/
def searchFold (L : ℕ → ℚ) : ℕ × Option ℚ := runFold L 5 50

/-- Modelled from the spec: the final training run executed by
`train_model(final_model, ..., num_epochs=200, patience=10)`.
`train_model` itself is absent from the available source (it is called at
line 187 but neither defined nor imported); the spec prescribes the same
early-stopping state machine as the search-time folds with an epoch cap
of 200 and patience 10. -/
def finalFold (L : ℕ → ℚ) : ℕ × Option ℚ := runFold L 10 200

/-- Minimum of `L 0, ..., L n` (used to state that the tracked best loss
is the lowest validation loss seen). -/
def minOver (L : ℕ → ℚ) : ℕ → ℚ
  | 0 => L 0
  | n + 1 => min (minOver L n) (L (n + 1))

/-- Embeds `np.mean` on a list of rationals. -/
def npMean (xs : List ℚ) : ℚ := xs.sum / (xs.length : ℚ)

/-- The best validation loss a search-time fold reports
(`fold_losses.append(best_val_loss)`, source line 118). -/
def foldBest (L : ℕ → ℚ) : ℚ := ((searchFold L).2).getD 0

/-- The cross-validation fold loop of `objective` (source lines 81-118):
each fold appends its best validation loss to the accumulator list. -/
def foldLoop : List (ℕ → ℚ) → List ℚ → List ℚ
  | [], acc => acc
  | L :: rest, acc => foldLoop rest (acc ++ [((runFold L 5 50).2).getD 0])

/-- Embeds `objective`'s return value `np.mean(fold_losses)` (source line 120),
with each fold's validation-loss sequence given abstractly. -/
def objectiveScore (folds : List (ℕ → ℚ)) : ℚ := npMean (foldLoop folds [])

/-- Loss sequence strictly decreasing for 3 epochs, flat afterwards
(used to exercise the early-stopping theorem at a concrete input). -/
def exL : ℕ → ℚ
  | 0 => 8
  | 1 => 7
  | _ + 2 => 6

/-! ## Time-series cross-validation split (source line 76)

`TimeSeriesSplit(n_splits=k)` over `np.arange(n)` with its defaults:
`test_size = n // (k + 1)`, the i-th fold's validation block starts at
`n - (k - i) * test_size`, its training block is the full prefix before
that start.  Requires `k + 1 ≤ n`. -/

/-- The list of `(train_indices, val_indices)` pairs produced by
`TimeSeriesSplit(n_splits=k).split(np.arange(n))`. -/
def tsSplit (n k : ℕ) : List (List ℕ × List ℕ) :=
  (List.range k).map (fun i =>
    (List.range (n - (k - i) * (n / (k + 1))),
     (List.range (n / (k + 1))).map (fun j => n - (k - i) * (n / (k + 1)) + j)))

/-- Embeds `n_splits=3` at source line 76. -/
def nSplitsConfigured : ℕ := 3

/-- Embeds `shuffle=False` of the per-fold training DataLoader (source line 84). -/
def cvTrainLoaderShuffle : Bool := false

/-- Embeds `shuffle=False` of the per-fold validation DataLoader (source line 85). -/
def cvValLoaderShuffle : Bool := false

/-! ## Model/optimizer/scheduler lifetimes inside `objective`
(source lines 57-118)

The body of `objective` is a straight-line prefix that allocates the
model, the optimizer and the scheduler, followed by the fold loop; the
allocations are embedded as statements interpreted with a fresh-id
allocator so that instance identity across folds and trials is visible. -/

inductive Stmt where
  | newModel
  | newOptim
  | newSched
  | runFoldStmt (fold : ℕ)
  deriving DecidableEq

/-- The statement sequence of `objective`: model construction (line 57),
optimizer (line 71) and scheduler (line 72) happen once, before the fold
loop (line 81) which runs the `k` folds in order. -/
def objectiveBody (k : ℕ) : List Stmt :=
  [Stmt.newModel, Stmt.newOptim, Stmt.newSched]
    ++ (List.range k).map Stmt.runFoldStmt

structure ExecSt where
  nextId : ℕ
  curModel : ℕ
  curOptim : ℕ
  curSched : ℕ
  foldUses : List (ℕ × ℕ × ℕ × ℕ)
  deriving DecidableEq

/-- Interpret one statement: an allocation consumes a fresh id; running a
fold records which model/optimizer/scheduler instances it uses. -/
def execStmt (s : ExecSt) : Stmt → ExecSt
  | Stmt.newModel => { s with nextId := s.nextId + 1, curModel := s.nextId }
  | Stmt.newOptim => { s with nextId := s.nextId + 1, curOptim := s.nextId }
  | Stmt.newSched => { s with nextId := s.nextId + 1, curSched := s.nextId }
  | Stmt.runFoldStmt f =>
      { s with foldUses := s.foldUses ++ [(f, s.curModel, s.curOptim, s.curSched)] }

/-- One call of `objective` for trial `t` with `k` folds; the allocator
starts at `3 * t` because each trial allocates exactly three objects, so
ids are fresh across trials. -/
def trialExec (t k : ℕ) : ExecSt :=
  (objectiveBody k).foldl execStmt ⟨3 * t, 0, 0, 0, []⟩

/-- The model instance used by fold `f` of trial `t`. -/
def modelUsed (t k f : ℕ) : Option ℕ :=
  ((trialExec t k).foldUses[f]?).map (fun u => u.2.1)

/-- The optimizer instance used by fold `f` of trial `t`. -/
def optimUsed (t k f : ℕ) : Option ℕ :=
  ((trialExec t k).foldUses[f]?).map (fun u => u.2.2.1)

/-- The scheduler instance used by fold `f` of trial `t`. -/
def schedUsed (t k f : ℕ) : Option ℕ :=
  ((trialExec t k).foldUses[f]?).map (fun u => u.2.2.2)

/-! ## The hyperparameter-search driver (source lines 151-156)

`study.optimize(objective, n_trials=30)` is called with optuna's default
`catch=()`: trials run sequentially, and an exception raised by the
objective (other than a pruning signal) propagates out of `optimize`,
stopping the study. -/

inductive TrialOutcome where
  | completed (score : ℚ)
  | failed
  deriving DecidableEq

/-- Run trials `i, i+1, ...` with `rem` trials remaining.  Returns the
scores of the completed trials and `some j` when trial `j` raised, in
which case no later trial runs (optuna default `catch=()` re-raises). -/
def optimizeFrom (behavior : ℕ → TrialOutcome) : ℕ → ℕ → List ℚ × Option ℕ
  | _, 0 => ([], none)
  | i, rem + 1 =>
    match behavior i with
    | TrialOutcome.failed => ([], some i)
    | TrialOutcome.completed q =>
      let r := optimizeFrom behavior (i + 1) rem
      (q :: r.1, r.2)

/-- Embeds `study.optimize(objective, n_trials=n)`. -/
def optimize (behavior : ℕ → TrialOutcome) (n : ℕ) : List ℚ × Option ℕ :=
  optimizeFrom behavior 0 n

/-- A study whose first trial raises a numerical error and whose other
trials would complete with score 1. -/
def divergingTrialBehavior : ℕ → TrialOutcome :=
  fun i => if i = 0 then TrialOutcome.failed else TrialOutcome.completed 1

/-- A study whose sixth trial (index 5) raises and whose other trials
complete with score 1. -/
def failAtFiveBehavior : ℕ → TrialOutcome :=
  fun i => if i = 5 then TrialOutcome.failed else TrialOutcome.completed 1

/-! ## Trial-API usage of `objective` and pruning (source lines 49-54,
90-120, 151-156)

`objective` only ever calls `trial.suggest_int` / `trial.suggest_float`;
it never calls `trial.report` nor `trial.should_prune`.  A `MedianPruner`
attached to the study can only prune a trial at a `should_prune` query,
so a trial that never queries is never pruned. -/

inductive TrialCall where
  | suggestIntCall (param : String)
  | suggestFloatCall (param : String)
  | reportCall
  | shouldPruneCall
  deriving DecidableEq

/-- The trial-API calls `objective` makes, in source order (lines 49-54);
the epoch/fold loops (lines 81-118) make no further trial calls. -/
def objectiveTrialCalls : List TrialCall :=
  [TrialCall.suggestIntCall "gat_out_channels",
   TrialCall.suggestIntCall "gat_heads",
   TrialCall.suggestIntCall "lstm_hidden_dim",
   TrialCall.suggestIntCall "lstm_layers",
   TrialCall.suggestFloatCall "lr",
   TrialCall.suggestFloatCall "weight_decay"]

inductive TrialState where
  | complete
  | pruned
  deriving DecidableEq

/-- optuna semantics: a trial ends `pruned` only if the objective asks
`should_prune` and the pruner answers yes; otherwise it completes. -/
def trialFinalState (calls : List TrialCall) (prunerSaysPrune : Bool) : TrialState :=
  match calls.contains TrialCall.shouldPruneCall && prunerSaysPrune with
  | true => TrialState.pruned
  | false => TrialState.complete

/-- Final states of the `n` trials of the study, for an arbitrary family
of pruner decisions (the `MedianPruner` of source line 154). -/
def studyTrialStates (n : ℕ) (prunerDecisions : ℕ → Bool) : List TrialState :=
  (List.range n).map (fun t => trialFinalState objectiveTrialCalls (prunerDecisions t))

/-! ## Names in scope at the final-training call (source lines 1-187)

The main routine calls `train_model(...)` at line 187, but `train_model`
is neither defined in the module nor among its imports (lines 3-15), so
the call raises `NameError` before `torch.save` (line 196) runs. -/

/-- The names bound by the module's import statements (lines 3-15). -/
def moduleImportedNames : List String :=
  ["os", "time", "logging", "np", "torch", "optim",
   "DataLoader", "TensorDataset", "Subset", "TimeSeriesSplit", "optuna",
   "get_model_complexity_info", "load_and_preprocess_data", "build_graph",
   "create_sequences", "MultiScaleGATv2_LSTM", "init_weights", "ModelWrapper"]

/-- The module-level names defined before the main block. -/
def moduleTopLevelNames : List String := ["device", "config", "objective"]

/-- The local names the main block has bound by line 187. -/
def mainLocalNames : List String :=
  ["train_data", "val_data", "test_data", "static_data", "grid_df",
   "features_to_scale", "target_scaler", "graph_data", "node_mapping",
   "train_sequences", "train_targets", "train_nodes",
   "val_sequences", "val_targets", "val_nodes",
   "node_feature_dim", "sequence_feature_dim", "edge_dim", "forecast_horizon",
   "node_features_tensor", "edge_index_tensor", "edge_attr_tensor",
   "train_nodes_tensor", "study", "best_params", "final_model",
   "optimizer", "scheduler", "criterion",
   "train_loader_final", "val_loader_final", "start_time"]

/-- Every name resolvable at the `train_model(...)` call site. -/
def namesInScopeAtFinalTrainCall : List String :=
  moduleImportedNames ++ moduleTopLevelNames ++ mainLocalNames

inductive MainOutcome where
  | completed
  | nameError (callee : String)
  deriving DecidableEq

structure MainTailResult where
  outcome : MainOutcome
  modelSaved : Bool
  complexityReported : Bool
  deriving DecidableEq

/-- The final phase of the main routine (lines 187-206): resolve and call
`train_model`, then save the model, then report complexity.  An
unresolvable callee raises `NameError` and nothing later runs. -/
def runFinalPhase : MainTailResult :=
  match namesInScopeAtFinalTrainCall.contains "train_model" with
  | true => { outcome := MainOutcome.completed,
              modelSaved := true, complexityReported := true }
  | false => { outcome := MainOutcome.nameError "train_model",
               modelSaved := false, complexityReported := false }

/-! ## Save / complexity-report tail (source lines 194-206)

`torch.save` (line 196) runs before `get_model_complexity_info`
(line 201); neither is wrapped in try/except, so a complexity failure
propagates after the save has completed. -/

structure SaveReportResult where
  modelSaved : Bool
  complexityLogged : Bool
  uncaughtError : Bool
  deriving DecidableEq

/-- Executes the save, then the complexity computation; a complexity
failure leaves the saved artifact in place but escapes uncaught. -/
def saveAndReport (complexityFails : Bool) : SaveReportResult :=
  match complexityFails with
  | true => { modelSaved := true, complexityLogged := false, uncaughtError := true }
  | false => { modelSaved := true, complexityLogged := true, uncaughtError := false }

/-- The event order of the tail: the save always happens first. -/
def saveReportEvents (complexityFails : Bool) : List String :=
  ["torch.save"] ++
    (match complexityFails with
     | true => ["get_model_complexity_info:raise"]
     | false => ["get_model_complexity_info", "log_complexity"])

/-! ## Determinism of the final train-and-save run (source lines 160-196)

The in-source steps are: construct `final_model` (consuming the ambient
global RNG for default layer init), apply `init_weights`, build
`train_loader_final` with `shuffle=True` (its batch order is drawn from
the then-current global RNG), call `train_model`, save the weights. -/

/-- A linear congruential step standing for the global RNG. -/
def lcg (s : ℕ) : ℕ := (1103515245 * s + 12345) % 2147483648

/-- Draw `n` values from the RNG, returning them and the next state. -/
def drawMany : ℕ → ℕ → List ℕ × ℕ
  | 0, s => ([], s)
  | n + 1, s => ((drawMany n (lcg s)).1 ++ [lcg s], (drawMany n (lcg s)).2)

/-- Modelled from the spec: `init_weights` (imported from the absent
`model_definition` module) "initializes weights deterministically-seeded":
after it runs, the global RNG state is a function of the seed alone. -/
def seededState (seed : ℕ) : ℕ := lcg seed

/-- The batch order `shuffle=True` produces from RNG state `s` (a
deterministic permutation selected by one RNG draw). -/
def shuffleOrder (n s : ℕ) : List ℕ :=
  (List.range n).map (fun i => (i + lcg s) % n)

/-- Modelled from the spec: `train_model` (called at line 187 but absent
from the source) — a bounded training run that is a deterministic
function of the initial weights, the data and the batch order. -/
def trainWeights (w0 : ℕ) (data : List ℚ) (order : List ℕ) : ℕ :=
  order.foldl (fun w i => lcg (w + i + data.length)) w0

/-- The final train-and-save pipeline as a function of the configured
seed, the data, and the ambient global RNG state at entry.  The default
layer initialization consumes the ambient RNG; `init_weights` then
re-seeds deterministically from `seed` (spec-modelled), after which the
shuffled loader and the training run consume the seeded stream only. -/
def finalTrainAndSave (seed : ℕ) (data : List ℚ) (ambient : ℕ) : ℕ :=
  let defaultInitDraws : List ℕ := (drawMany 4 ambient).1
  let g2 : ℕ := seededState seed
  let w0 : ℕ := ((drawMany 4 g2).1).foldl (fun a b => a + b) 0
  let g3 : ℕ := (drawMany 4 g2).2
  let order : List ℕ := shuffleOrder data.length g3
  trainWeights w0 data order

/-! ### Basic lemmas about the fold loop -/

theorem improves_none (l : ℚ) : improves l none = true := rfl

theorem improves_some_iff (l b : ℚ) : improves l (some b) = true ↔ l < b := by
  simp [improves]

theorem runFoldAux_epochs_le (L : ℕ → ℚ) (p : ℕ) :
    ∀ fuel e b c, (runFoldAux L p fuel e b c).1 ≤ e + fuel := by
  intro fuel
  induction fuel with
  | zero => intro e b c; simp [runFoldAux]
  | succ f ih =>
    intro e b c
    rw [runFoldAux]
    cases h : esStep p (L e) b c with
    | none => simp
    | some bc =>
      obtain ⟨b', c'⟩ := bc
      have := ih (e + 1) b' c'
      simp only []
      omega

theorem runFoldAux_epochs_ge (L : ℕ → ℚ) (p : ℕ) :
    ∀ fuel e b c, e ≤ (runFoldAux L p fuel e b c).1 := by
  intro fuel
  induction fuel with
  | zero => intro e b c; simp [runFoldAux]
  | succ f ih =>
    intro e b c
    rw [runFoldAux]
    cases h : esStep p (L e) b c with
    | none => simp
    | some bc =>
      obtain ⟨b', c'⟩ := bc
      have := ih (e + 1) b' c'
      simp only []
      omega

/-- During the strictly-decreasing phase every epoch improves the best
loss and resets the counter, so the loop just advances to epoch `m`. -/
theorem runFoldAux_decreasing_phase (L : ℕ → ℚ) (p m : ℕ)
    (hdec : ∀ i, i + 1 < m → L (i + 1) < L i) :
    ∀ d j fuel, 1 ≤ j → j + d = m → d ≤ fuel →
      runFoldAux L p fuel j (some (L (j - 1))) 0 =
        runFoldAux L p (fuel - d) m (some (L (m - 1))) 0 := by
  intro d
  induction d with
  | zero =>
    intro j fuel hj hjd hdf
    have hjm : j = m := by omega
    subst hjm
    simp
  | succ d ih =>
    intro j fuel hj hjd hdf
    obtain ⟨f, rfl⟩ : ∃ f, fuel = f + 1 := ⟨fuel - 1, by omega⟩
    have himp : improves (L j) (some (L (j - 1))) = true := by
      rw [improves_some_iff]
      have := hdec (j - 1) (by omega)
      have hj1 : j - 1 + 1 = j := by omega
      rwa [hj1] at this
    have hstep : esStep p (L j) (some (L (j - 1))) 0 = some (some (L j), 0) := by
      rw [esStep, himp]
    rw [runFoldAux, hstep]
    show runFoldAux L p f (j + 1) (some (L j)) 0 =
      runFoldAux L p (f + 1 - (d + 1)) m (some (L (m - 1))) 0
    rw [show f + 1 - (d + 1) = f - d by omega, show L j = L (j + 1 - 1) by norm_num]
    exact ih (j + 1) f (by omega) (by omega) (by omega)

/-- During the flat phase nothing improves, so the counter climbs by one
per epoch until it reaches the patience threshold and the loop breaks. -/
theorem runFoldAux_flat_phase (L : ℕ → ℚ) (p m : ℕ)
    (hflat : ∀ j, m ≤ j → L j = L (m - 1)) :
    ∀ d c e fuel, 1 ≤ d → c + d = p → m ≤ e → d ≤ fuel →
      runFoldAux L p fuel e (some (L (m - 1))) c = (e + d, some (L (m - 1))) := by
  intro d
  induction d with
  | zero => intro c e fuel h1; omega
  | succ d ih =>
    intro c e fuel h1 hcd he hdf
    obtain ⟨f, rfl⟩ : ∃ f, fuel = f + 1 := ⟨fuel - 1, by omega⟩
    have himp : improves (L e) (some (L (m - 1))) = false := by
      simp only [improves, hflat e he, decide_eq_false_iff_not]
      exact lt_irrefl _
    cases Nat.eq_zero_or_pos d with
    | inl hd0 =>
      subst hd0
      have hstep : esStep p (L e) (some (L (m - 1))) c = none := by
        rw [esStep, himp]
        simp only []
        rw [if_pos (by omega)]
      rw [runFoldAux, hstep]
    | inr hdpos =>
      have hstep : esStep p (L e) (some (L (m - 1))) c =
          some (some (L (m - 1)), c + 1) := by
        rw [esStep, himp]
        simp only []
        rw [if_neg (by omega)]
      rw [runFoldAux, hstep]
      show runFoldAux L p f (e + 1) (some (L (m - 1))) (c + 1) =
        (e + (d + 1), some (L (m - 1)))
      rw [show e + (d + 1) = e + 1 + d by omega]
      exact ih (c + 1) (e + 1) f hdpos (by omega) (by omega) (by omega)

/-- The early-stopping loop on a loss sequence that strictly decreases
for `m ≥ 1` epochs and is flat afterwards runs exactly `m + patience`
epochs and reports `L (m - 1)` as the best loss. -/
theorem runFold_decreasing_then_flat (L : ℕ → ℚ) (p cap m : ℕ)
    (hm : 1 ≤ m) (hp : 1 ≤ p) (hcap : m + p ≤ cap)
    (hdec : ∀ i, i + 1 < m → L (i + 1) < L i)
    (hflat : ∀ j, m ≤ j → L j = L (m - 1)) :
    runFold L p cap = (m + p, some (L (m - 1))) := by
  obtain ⟨c, rfl⟩ : ∃ c, cap = c + 1 := ⟨cap - 1, by omega⟩
  have hstep : esStep p (L 0) none 0 = some (some (L 0), 0) := by
    rw [esStep, improves_none]
  rw [runFold, runFoldAux, hstep]
  show runFoldAux L p c 1 (some (L 0)) 0 = (m + p, some (L (m - 1)))
  rw [show L 0 = L (1 - 1) by norm_num]
  rw [runFoldAux_decreasing_phase L p m hdec (m - 1) 1 c (by omega) (by omega)
    (by omega)]
  rw [runFoldAux_flat_phase L p m hflat p 0 m (c - (m - 1)) hp (by omega)
    (by omega) (by omega)]

/-- Invariant of the epoch loop: when the tracked best equals the minimum
of the losses seen so far, it still does on exit. -/
theorem runFoldAux_best_is_min (L : ℕ → ℚ) (p : ℕ) :
    ∀ fuel e c, 1 ≤ e →
      (runFoldAux L p fuel e (some (minOver L (e - 1))) c).2 =
        some (minOver L ((runFoldAux L p fuel e (some (minOver L (e - 1))) c).1 - 1)) := by
  intro fuel
  induction fuel with
  | zero => intro e c he; simp [runFoldAux]
  | succ f ih =>
    intro e c he
    obtain ⟨e', rfl⟩ : ∃ e', e = e' + 1 := ⟨e - 1, by omega⟩
    simp only [Nat.add_sub_cancel]
    cases himp : improves (L (e' + 1)) (some (minOver L e')) with
    | true =>
      have hlt : L (e' + 1) < minOver L e' := (improves_some_iff _ _).mp himp
      have hmin : minOver L (e' + 1) = L (e' + 1) := by
        rw [minOver]; exact min_eq_right (le_of_lt hlt)
      have hstep : esStep p (L (e' + 1)) (some (minOver L e')) c =
          some (some (L (e' + 1)), 0) := by rw [esStep, himp]
      rw [runFoldAux, hstep]
      show (runFoldAux L p f (e' + 1 + 1) (some (L (e' + 1))) 0).2 =
        some (minOver L ((runFoldAux L p f (e' + 1 + 1) (some (L (e' + 1))) 0).1 - 1))
      have := ih (e' + 1 + 1) 0 (by omega)
      rw [show e' + 1 + 1 - 1 = e' + 1 by omega, hmin] at this
      exact this
    | false =>
      have hge : minOver L e' ≤ L (e' + 1) := by
        have : ¬ L (e' + 1) < minOver L e' := by
          intro hlt
          rw [(improves_some_iff _ _).mpr hlt] at himp
          simp at himp
        exact not_lt.mp this
      have hmin : minOver L (e' + 1) = minOver L e' := by
        rw [minOver]; exact min_eq_left hge
      by_cases hpc : p ≤ c + 1
      · have hstep : esStep p (L (e' + 1)) (some (minOver L e')) c = none := by
          rw [esStep, himp]
          simp only []
          rw [if_pos hpc]
        rw [runFoldAux, hstep]
        show some (minOver L e') = some (minOver L (e' + 1 + 1 - 1))
        rw [show e' + 1 + 1 - 1 = e' + 1 by omega, hmin]
      · have hstep : esStep p (L (e' + 1)) (some (minOver L e')) c =
            some (some (minOver L e'), c + 1) := by
          rw [esStep, himp]
          simp only []
          rw [if_neg hpc]
        rw [runFoldAux, hstep]
        show (runFoldAux L p f (e' + 1 + 1) (some (minOver L e')) (c + 1)).2 =
          some (minOver L ((runFoldAux L p f (e' + 1 + 1) (some (minOver L e')) (c + 1)).1 - 1))
        have := ih (e' + 1 + 1) (c + 1) (by omega)
        rw [show e' + 1 + 1 - 1 = e' + 1 by omega, hmin] at this
        exact this

/-- The best validation loss a search-time fold reports is the minimum of
the validation losses over its executed epochs. -/
theorem searchFold_best_is_min (L : ℕ → ℚ) :
    (searchFold L).2 = some (minOver L ((searchFold L).1 - 1)) := by
  have h0 : searchFold L = runFoldAux L 5 49 1 (some (L 0)) 0 := by
    show runFoldAux L 5 (49 + 1) 0 none 0 = _
    have hstep : esStep 5 (L 0) none 0 = some (some (L 0), 0) := by
      rw [esStep, improves_none]
    rw [runFoldAux, hstep]
  rw [h0]
  have := runFoldAux_best_is_min L 5 49 1 0 (by omega)
  simpa [minOver] using this

/-- The fold loop of `objective` accumulates exactly the per-fold best
losses, in fold order. -/
theorem foldLoop_eq_map (folds : List (ℕ → ℚ)) :
    ∀ acc, foldLoop folds acc = acc ++ folds.map foldBest := by
  induction folds with
  | nil => intro acc; simp [foldLoop]
  | cons L rest ih =>
    intro acc
    rw [foldLoop, ih, List.map_cons]
    simp [foldBest, searchFold]

/-- Folding the fold-loop statements only appends usage records; the
current instances are unchanged. -/
theorem foldl_runFoldStmt (l : List ℕ) :
    ∀ s : ExecSt, (l.map Stmt.runFoldStmt).foldl execStmt s =
      { s with foldUses :=
          s.foldUses ++ l.map (fun f => (f, s.curModel, s.curOptim, s.curSched)) } := by
  induction l with
  | nil => intro s; simp
  | cons f fs ih =>
    intro s
    rw [List.map_cons, List.foldl_cons]
    rw [show execStmt s (Stmt.runFoldStmt f)
      = { s with foldUses := s.foldUses ++ [(f, s.curModel, s.curOptim, s.curSched)] }
      from rfl]
    rw [ih]
    simp

/-- The usage records of one `objective` call: every fold of trial `t`
uses model `3t`, optimizer `3t+1` and scheduler `3t+2`. -/
theorem trialExec_foldUses (t k : ℕ) :
    (trialExec t k).foldUses =
      (List.range k).map (fun f => (f, 3 * t, 3 * t + 1, 3 * t + 2)) := by
  rw [trialExec, objectiveBody, List.foldl_append]
  show (((List.range k).map Stmt.runFoldStmt).foldl execStmt
    ⟨3 * t + 1 + 1 + 1, 3 * t, 3 * t + 1, 3 * t + 2, []⟩).foldUses = _
  rw [foldl_runFoldStmt]
  simp

theorem modelUsed_eq (t k f : ℕ) (hf : f < k) : modelUsed t k f = some (3 * t) := by
  rw [modelUsed, trialExec_foldUses, List.getElem?_map, List.getElem?_range hf]
  rfl

theorem optimUsed_eq (t k f : ℕ) (hf : f < k) : optimUsed t k f = some (3 * t + 1) := by
  rw [optimUsed, trialExec_foldUses, List.getElem?_map, List.getElem?_range hf]
  rfl

theorem schedUsed_eq (t k f : ℕ) (hf : f < k) : schedUsed t k f = some (3 * t + 2) := by
  rw [schedUsed, trialExec_foldUses, List.getElem?_map, List.getElem?_range hf]
  rfl

/-- If the first failure among the trials run from `start` is at offset
`d`, the optimize loop raises there after completing `d` trials. -/
theorem optimizeFrom_first_failure (behavior : ℕ → TrialOutcome) :
    ∀ d start rem, d < rem →
      (∀ j, j < d → behavior (start + j) ≠ TrialOutcome.failed) →
      behavior (start + d) = TrialOutcome.failed →
      (optimizeFrom behavior start rem).2 = some (start + d) ∧
      (optimizeFrom behavior start rem).1.length = d := by
  intro d
  induction d with
  | zero =>
    intro start rem hrem _ hfail
    obtain ⟨r, rfl⟩ : ∃ r, rem = r + 1 := ⟨rem - 1, by omega⟩
    rw [show start + 0 = start by omega] at hfail
    rw [optimizeFrom, hfail]
    exact ⟨rfl, rfl⟩
  | succ d ih =>
    intro start rem hrem hok hfail
    obtain ⟨r, rfl⟩ : ∃ r, rem = r + 1 := ⟨rem - 1, by omega⟩
    have h0 : behavior start ≠ TrialOutcome.failed := by
      have := hok 0 (by omega)
      rwa [show start + 0 = start by omega] at this
    cases hb : behavior start with
    | failed => exact absurd hb h0
    | completed q =>
      rw [optimizeFrom, hb]
      have hrest := ih (start + 1) r (by omega)
        (fun j hj => by
          have := hok (j + 1) (by omega)
          rwa [show start + (j + 1) = start + 1 + j by omega] at this)
        (by rw [show start + 1 + d = start + (d + 1) by omega]; exact hfail)
      constructor
      · show (optimizeFrom behavior (start + 1) r).2 = some (start + (d + 1))
        rw [hrest.1]
        congr 1
        omega
      · show (q :: (optimizeFrom behavior (start + 1) r).1).length = d + 1
        rw [List.length_cons, hrest.2]

/-- Multiples of the fold width fit in `n`. -/
theorem tsSplit_mul_le (n k i : ℕ) (hi : i ≤ k + 1) : i * (n / (k + 1)) ≤ n :=
  le_trans (Nat.mul_le_mul_right _ hi)
    (by rw [Nat.mul_comm]; exact Nat.div_mul_le_self n (k + 1))

/-- The validation block of an earlier fold ends no later than the start
of a later fold's validation block. -/
theorem tsSplit_start_step (n k i i' : ℕ) (h : i < i') (hik : i < k) :
    n - (k - i) * (n / (k + 1)) + n / (k + 1) ≤ n - (k - i') * (n / (k + 1)) := by
  have hA : (k - i) * (n / (k + 1)) ≤ n := tsSplit_mul_le n k (k - i) (by omega)
  have hstep : (k - i') * (n / (k + 1)) + n / (k + 1) ≤ (k - i) * (n / (k + 1)) := by
    have h1 : k - i' + 1 ≤ k - i := by omega
    calc (k - i') * (n / (k + 1)) + n / (k + 1)
        = (k - i' + 1) * (n / (k + 1)) := by ring
      _ ≤ (k - i) * (n / (k + 1)) := Nat.mul_le_mul_right _ h1
  omega

/-! ## Claim theorems -/

/-- C1: the pipeline's final-training step is NOT a defined, callable
operation — `train_model` is called at line 187 but is neither defined in
the module nor imported, so every run that completes the search raises
`NameError` there and neither the model file nor the complexity report is
produced.  (The spec's end-to-end requirement is the intent; the missing
definition/import is the code bug.) -/
theorem trainModel_undefined_blocks_pipeline :
    namesInScopeAtFinalTrainCall.contains "train_model" = false ∧
    runFinalPhase.outcome = MainOutcome.nameError "train_model" ∧
    runFinalPhase.modelSaved = false ∧
    runFinalPhase.complexityReported = false :=
  ⟨rfl, rfl, rfl, rfl⟩

/-- C2 counterexample: in trial 0 with the code's 3 folds, folds 0, 1 and
2 all use the same model instance (id 0), the same optimizer (id 1) and
the same scheduler (id 2) — they are created once before the fold loop,
not freshly per fold, so the claim as stated is false. -/
theorem foldsShareInstances_cex :
    (modelUsed 0 3 0 = some 0 ∧ modelUsed 0 3 1 = some 0 ∧ modelUsed 0 3 2 = some 0) ∧
    (optimUsed 0 3 0 = some 1 ∧ optimUsed 0 3 1 = some 1 ∧ optimUsed 0 3 2 = some 1) ∧
    (schedUsed 0 3 0 = some 2 ∧ schedUsed 0 3 1 = some 2 ∧ schedUsed 0 3 2 = some 2) :=
  ⟨⟨rfl, rfl, rfl⟩, ⟨rfl, rfl, rfl⟩, ⟨rfl, rfl, rfl⟩⟩

/-- C2 (amended): the model, optimizer and scheduler are created once per
trial, before the fold loop, and shared by all `k` folds of that trial;
across distinct trials the instances are fresh (disjoint ids). -/
theorem instances_per_trial_shared_across_folds (t t' k f f' : ℕ)
    (hf : f < k) (hf' : f' < k) (ht : t ≠ t') :
    modelUsed t k f = some (3 * t) ∧
    optimUsed t k f = some (3 * t + 1) ∧
    schedUsed t k f = some (3 * t + 2) ∧
    modelUsed t k f = modelUsed t k f' ∧
    optimUsed t k f = optimUsed t k f' ∧
    schedUsed t k f = schedUsed t k f' ∧
    modelUsed t k f ≠ modelUsed t' k f' ∧
    optimUsed t k f ≠ optimUsed t' k f' ∧
    schedUsed t k f ≠ schedUsed t' k f' := by
  refine ⟨modelUsed_eq t k f hf, optimUsed_eq t k f hf, schedUsed_eq t k f hf,
    ?_, ?_, ?_, ?_, ?_, ?_⟩
  · rw [modelUsed_eq t k f hf, modelUsed_eq t k f' hf']
  · rw [optimUsed_eq t k f hf, optimUsed_eq t k f' hf']
  · rw [schedUsed_eq t k f hf, schedUsed_eq t k f' hf']
  · rw [modelUsed_eq t k f hf, modelUsed_eq t' k f' hf']
    simp only [ne_eq, Option.some.injEq]
    omega
  · rw [optimUsed_eq t k f hf, optimUsed_eq t' k f' hf']
    simp only [ne_eq, Option.some.injEq]
    omega
  · rw [schedUsed_eq t k f hf, schedUsed_eq t' k f' hf']
    simp only [ne_eq, Option.some.injEq]
    omega

/-- C2 witness: the amended statement at trials 0 and 1, folds 0 and 1 of
the code's 3 folds. -/
theorem instances_per_trial_witness :
    modelUsed 0 3 0 = some (3 * 0) ∧
    optimUsed 0 3 0 = some (3 * 0 + 1) ∧
    schedUsed 0 3 0 = some (3 * 0 + 2) ∧
    modelUsed 0 3 0 = modelUsed 0 3 1 ∧
    optimUsed 0 3 0 = optimUsed 0 3 1 ∧
    schedUsed 0 3 0 = schedUsed 0 3 1 ∧
    modelUsed 0 3 0 ≠ modelUsed 1 3 1 ∧
    optimUsed 0 3 0 ≠ optimUsed 1 3 1 ∧
    schedUsed 0 3 0 ≠ schedUsed 1 3 1 :=
  instances_per_trial_shared_across_folds 0 1 3 0 1 (by norm_num) (by norm_num)
    (by norm_num)

/-- C3 counterexample: for a study whose first trial raises a numerical
error, `study.optimize(objective, n_trials=30)` aborts at trial 0 — no
score (worst-possible or otherwise) is recorded for it and the remaining
29 trials of the budget never execute, contrary to the claim. -/
theorem trialFailureAborts_cex :
    (optimize divergingTrialBehavior 30).2 = some 0 ∧
    (optimize divergingTrialBehavior 30).1 = [] :=
  ⟨rfl, rfl⟩

/-- C3 (amended): a trial that raises a numerical error propagates its
exception out of `study.optimize` (the call passes no `catch` argument
and `objective` has no handler): the search aborts at that trial, the
trial is not scored, and the remaining trials do not execute. -/
theorem search_aborts_on_trial_failure (behavior : ℕ → TrialOutcome) (n i : ℕ)
    (hi : i < n) (hfail : behavior i = TrialOutcome.failed)
    (hok : ∀ j, j < i → behavior j ≠ TrialOutcome.failed) :
    (optimize behavior n).2 = some i ∧ (optimize behavior n).1.length = i := by
  have h := optimizeFrom_first_failure behavior i 0 n hi
    (fun j hj => by simpa using hok j hj)
    (by simpa using hfail)
  simpa [optimize] using h

/-- C3 witness: the amended statement for a 30-trial study whose sixth
trial (index 5) raises: five trials complete, the sixth aborts the run. -/
theorem search_aborts_witness :
    (optimize failAtFiveBehavior 30).2 = some 5 ∧
    (optimize failAtFiveBehavior 30).1.length = 5 :=
  search_aborts_on_trial_failure failAtFiveBehavior 30 5 (by norm_num) rfl
    (fun j hj => by
      have hne : j ≠ 5 := by omega
      simp [failAtFiveBehavior, hne])

/-- C4: on a loss sequence strictly decreasing for `m ≥ 1` epochs then
flat, the fold's epoch loop halts at exactly epoch `m + patience` (5 for
search-time folds, 10 for the final run), provided `m + patience` does
not exceed the epoch cap; and the no-improvement counter is reset to zero
exactly when the epoch's loss is strictly below the best so far, and is
incremented (stopping at patience) otherwise. -/
theorem earlyStopping_halts_at_m_plus_patience (L : ℕ → ℚ) (m : ℕ)
    (hm : 1 ≤ m)
    (hdec : ∀ i, i + 1 < m → L (i + 1) < L i)
    (hflat : ∀ j, m ≤ j → L j = L (m - 1)) :
    (m + 5 ≤ 50 → (searchFold L).1 = m + 5) ∧
    (m + 10 ≤ 200 → (finalFold L).1 = m + 10) ∧
    (∀ (p c : ℕ) (l b : ℚ), l < b → esStep p l (some b) c = some (some l, 0)) ∧
    (∀ (p c : ℕ) (l b : ℚ), b ≤ l → c + 1 < p →
      esStep p l (some b) c = some (some b, c + 1)) ∧
    (∀ (p c : ℕ) (l b : ℚ), b ≤ l → p ≤ c + 1 → esStep p l (some b) c = none) := by
  refine ⟨?_, ?_, ?_, ?_, ?_⟩
  · intro hcap
    rw [searchFold, runFold_decreasing_then_flat L 5 50 m hm (by omega) hcap hdec hflat]
  · intro hcap
    rw [finalFold, runFold_decreasing_then_flat L 10 200 m hm (by omega) hcap hdec hflat]
  · intro p c l b hlt
    rw [esStep, (improves_some_iff l b).mpr hlt]
  · intro p c l b hle hc
    have himp : improves l (some b) = false := decide_eq_false (not_lt.mpr hle)
    rw [esStep, himp]
    simp only []
    rw [if_neg (by omega)]
  · intro p c l b hle hc
    have himp : improves l (some b) = false := decide_eq_false (not_lt.mpr hle)
    rw [esStep, himp]
    simp only []
    rw [if_pos hc]

/-- C4 witness: on `exL` (decreasing for 3 epochs, then flat) the search
fold halts after exactly 3 + 5 epochs and the final run after 3 + 10. -/
theorem earlyStopping_witness :
    (searchFold exL).1 = 3 + 5 ∧ (finalFold exL).1 = 3 + 10 := by
  have h := earlyStopping_halts_at_m_plus_patience exL 3 (by norm_num)
    (by
      intro i hi
      have h01 : i = 0 ∨ i = 1 := by omega
      rcases h01 with rfl | rfl
      · norm_num [exL]
      · norm_num [exL])
    (by
      intro j hj
      obtain ⟨j', rfl⟩ : ∃ j', j = j' + 2 := ⟨j - 2, by omega⟩
      rfl)
  exact ⟨h.1 (by norm_num), h.2.1 (by norm_num)⟩

/-- C5: `objective` returns the unweighted arithmetic mean of the
per-fold best validation losses, each fold contributing the minimum
validation loss over its executed epochs; on fold bests
[0.2, 0.4, 0.3] the aggregate is 0.3. -/
theorem objective_mean_of_fold_bests :
    (∀ folds : List (ℕ → ℚ),
      objectiveScore folds = (folds.map foldBest).sum / ((folds.length : ℕ) : ℚ)) ∧
    (∀ L1 L2 L3 : ℕ → ℚ,
      objectiveScore [L1, L2, L3] = (foldBest L1 + foldBest L2 + foldBest L3) / 3) ∧
    (∀ L : ℕ → ℚ, (searchFold L).2 = some (minOver L ((searchFold L).1 - 1))) ∧
    (∀ L : ℕ → ℚ, foldBest L = minOver L ((searchFold L).1 - 1)) ∧
    npMean [(1 : ℚ) / 5, 2 / 5, 3 / 10] = 3 / 10 := by
  have hmain : ∀ folds : List (ℕ → ℚ),
      objectiveScore folds = (folds.map foldBest).sum / ((folds.length : ℕ) : ℚ) := by
    intro folds
    rw [objectiveScore, foldLoop_eq_map, List.nil_append, npMean, List.length_map]
  refine ⟨hmain, ?_, searchFold_best_is_min, ?_, ?_⟩
  · intro L1 L2 L3
    rw [hmain]
    simp only [List.map_cons, List.map_nil, List.sum_cons, List.sum_nil,
      List.length_cons, List.length_nil]
    norm_num
    ring_nf
  · intro L
    rw [foldBest, searchFold_best_is_min L]
    rfl
  · norm_num [npMean]

/-- C6: every `TimeSeriesSplit` fold puts all validation indices strictly
after all training indices, validation blocks of different folds are
pairwise disjoint, both index lists are strictly increasing (no
shuffling), both fold DataLoaders are created with `shuffle=False`, and
the configured number of splits is 3. -/
theorem tsSplit_temporal_order (n k : ℕ) (hk : 2 ≤ k) (hn : k + 1 ≤ n) :
    (∀ p ∈ tsSplit n k, ∀ a ∈ p.1, ∀ b ∈ p.2, a < b) ∧
    List.Pairwise (fun p q => ∀ b ∈ p.2, b ∉ q.2) (tsSplit n k) ∧
    (∀ p ∈ tsSplit n k, List.Pairwise (fun a b => a < b) p.1 ∧
      List.Pairwise (fun a b => a < b) p.2) ∧
    (cvTrainLoaderShuffle = false ∧ cvValLoaderShuffle = false ∧
      nSplitsConfigured = 3) := by
  refine ⟨?_, ?_, ?_, rfl, rfl, rfl⟩
  · intro p hp a ha b hb
    rw [tsSplit, List.mem_map] at hp
    obtain ⟨i, hi, rfl⟩ := hp
    rw [List.mem_range] at ha
    rw [List.mem_map] at hb
    obtain ⟨j, hj, rfl⟩ := hb
    omega
  · rw [tsSplit, List.pairwise_map, List.pairwise_iff_getElem]
    intro a b ha hb hab
    rw [List.length_range] at ha hb
    simp only [List.getElem_range]
    intro x hx hx'
    rw [List.mem_map] at hx hx'
    obtain ⟨j, hj, rfl⟩ := hx
    obtain ⟨j', hj', heq⟩ := hx'
    rw [List.mem_range] at hj hj'
    have hstep := tsSplit_start_step n k a b hab (by omega)
    omega
  · intro p hp
    rw [tsSplit, List.mem_map] at hp
    obtain ⟨i, hi, rfl⟩ := hp
    constructor
    · exact List.pairwise_lt_range _
    · rw [List.pairwise_map]
      exact (List.pairwise_lt_range _).imp (fun h => by omega)

/-- C6 witness: the split invariants at a dataset of 8 samples with the
code's 3 splits (validation blocks [2,3], [4,5], [6,7]). -/
theorem tsSplit_witness :
    (∀ p ∈ tsSplit 8 3, ∀ a ∈ p.1, ∀ b ∈ p.2, a < b) ∧
    List.Pairwise (fun p q => ∀ b ∈ p.2, b ∉ q.2) (tsSplit 8 3) ∧
    (∀ p ∈ tsSplit 8 3, List.Pairwise (fun a b => a < b) p.1 ∧
      List.Pairwise (fun a b => a < b) p.2) ∧
    (cvTrainLoaderShuffle = false ∧ cvValLoaderShuffle = false ∧
      nSplitsConfigured = 3) :=
  tsSplit_temporal_order 8 3 (by norm_num) (by norm_num)

/-- C7: every training loop is bounded — a search-time fold executes at
most 50 epochs, the final run at most 200, and early stopping fires
before the cap when the loss stops improving (e.g. a flat sequence stops
a search fold after 6 epochs and the final run after 11). -/
theorem training_loops_bounded :
    (∀ L : ℕ → ℚ, (searchFold L).1 ≤ 50) ∧
    (∀ L : ℕ → ℚ, (finalFold L).1 ≤ 200) ∧
    (searchFold (fun _ => (1 : ℚ))).1 = 6 ∧
    (finalFold (fun _ => (1 : ℚ))).1 = 11 := by
  refine ⟨?_, ?_, rfl, rfl⟩
  · intro L
    have h := runFoldAux_epochs_le L 5 50 0 none 0
    simpa [searchFold, runFold] using h
  · intro L
    have h := runFoldAux_epochs_le L 10 200 0 none 0
    simpa [finalFold, runFold] using h

/-- C8 counterexample: when the complexity computation fails, the failure
is NOT logged-and-skipped — there is no try/except around
`get_model_complexity_info`, so the exception escapes uncaught. -/
theorem complexityFailureFatal_cex :
    (saveAndReport true).uncaughtError = true ∧
    (saveAndReport true).complexityLogged = false :=
  ⟨rfl, rfl⟩

/-- C8 (amended): `torch.save` completes before the complexity
computation begins, so a complexity failure never blocks or invalidates
the persisted artifact; but the failure is fatal to the run (uncaught)
rather than logged and skipped. -/
theorem save_precedes_complexity :
    (∀ b : Bool, (saveAndReport b).modelSaved = true) ∧
    (∀ b : Bool, (saveReportEvents b).head? = some "torch.save") ∧
    (saveAndReport false).uncaughtError = false ∧
    (saveAndReport false).complexityLogged = true ∧
    (saveAndReport true).modelSaved = true ∧
    (saveAndReport true).uncaughtError = true := by
  refine ⟨?_, ?_, rfl, rfl, rfl, rfl⟩
  · intro b; cases b <;> rfl
  · intro b; cases b <;> rfl

/-- C9: the final train-and-save pipeline is a deterministic function of
the configured seed and the data: its output does not depend on the
ambient global RNG state at entry, because the (spec-modelled)
deterministically-seeded weight initialization re-derives the RNG state
from the seed before the shuffled loader and the training run consume
it.  Hence two runs with identical configuration, seed and data persist
identical weights. -/
theorem finalTraining_deterministic_given_seed (seed : ℕ) (data : List ℚ)
    (ambient ambient' : ℕ) :
    finalTrainAndSave seed data ambient = finalTrainAndSave seed data ambient' :=
  rfl

/-- C10: `objective` never calls `trial.report` nor `trial.should_prune`,
so no trial of the study is ever pruned whatever the `MedianPruner` would
decide; every trial runs its whole fold loop — one best-loss entry per
fold — and its score is the completed aggregate. -/
theorem noPruning_allTrialsComplete :
    objectiveTrialCalls.contains TrialCall.reportCall = false ∧
    objectiveTrialCalls.contains TrialCall.shouldPruneCall = false ∧
    (∀ (n : ℕ) (d : ℕ → Bool),
      (studyTrialStates n d).all (fun s => decide (s = TrialState.complete)) = true) ∧
    (∀ folds : List (ℕ → ℚ), (foldLoop folds []).length = folds.length) := by
  refine ⟨rfl, rfl, ?_, ?_⟩
  · intro n d
    rw [List.all_eq_true]
    intro s hs
    rw [studyTrialStates, List.mem_map] at hs
    obtain ⟨t, ht, rfl⟩ := hs
    rfl
  · intro folds
    rw [foldLoop_eq_map, List.nil_append, List.length_map]

end ModelTraining
